import Mathlib

/-!
Verification of the retrieval-augmented conversation engine of the
InspiraTEC-2024-Yachani repository (pages/3_chat.py and
pages/5_document_chat.py), via a shallow embedding of its Python code.

Python strings are modelled as lists of unicode code points (`PyStr`);
the Python builtins used by the source (`str.strip`, `str.split` on the
two-character separators "]:" and "\n\n", `"sep".join`) are given
explicit executable models below, and the source functions
(`search_documents`, `load_agent_history`, `save_agent_history`,
`extract_pdf_content`, the chat `main` loops) are translated on top of
them.
-/

/-- A Python `str`, modelled as its sequence of unicode code points. -/
abbrev PyStr := List Char

/-- Embed a Lean string literal as a `PyStr`. -/
def pystr (s : String) : PyStr := s.toList

/-- The whitespace class stripped by Python's `str.strip()`
(the ASCII whitespace characters, which are the only ones the
repository's data can contain around passage text). -/
def pyWs (c : Char) : Bool :=
  c = ' ' || c = '\n' || c = '\t' || c = '\r' || c = '\x0b' || c = '\x0c'

/-- Model of Python `str.strip()`: drop leading and trailing whitespace. -/
def pyStrip (s : PyStr) : PyStr :=
  ((s.dropWhile pyWs).reverse.dropWhile pyWs).reverse

/-- Model of Python `sep.join(xs)`. -/
def pyJoin (sep : PyStr) (xs : List PyStr) : PyStr :=
  List.intercalate sep xs

/-- Model of Python `s.split(sep)` for a two-character separator
`[a, b]` (the source only splits on `"]:"` and `"\n\n"`):
scan left to right for non-overlapping occurrences of the separator. -/
def splitPair (a b : Char) : PyStr → List PyStr
  | [] => [[]]
  | [c] => [[c]]
  | c :: c2 :: rest =>
    if c = a ∧ c2 = b then [] :: splitPair a b rest
    else
      match splitPair a b (c2 :: rest) with
      | [] => [[c]]
      | h :: tl => (c :: h) :: tl

/-- Whether `[a, b]` occurs as a contiguous substring of `s`. -/
def hasPair (a b : Char) : PyStr → Bool
  | [] => false
  | [_] => false
  | c :: c2 :: rest => (c = a && c2 = b) || hasPair a b (c2 :: rest)

/-- Whether `needle` occurs as a contiguous substring of `hay`. -/
def hasSubstr (needle : PyStr) : PyStr → Bool
  | [] => needle.isEmpty
  | c :: rest => needle.isPrefixOf (c :: rest) || hasSubstr needle rest

theorem hasPair_cons_of_ne (a b c : Char) (t : PyStr) (h : ¬ c = a) :
    hasPair a b (c :: t) = hasPair a b t := by
  cases t with
  | nil => rfl
  | cons c2 t' =>
    show ((c = a && c2 = b) || hasPair a b (c2 :: t')) = _
    simp [h]

theorem splitPair_of_not_hasPair (a b : Char) (t : PyStr)
    (h : hasPair a b t = false) : splitPair a b t = [t] := by
  induction t with
  | nil => rfl
  | cons c t' ih =>
    cases t' with
    | nil => rfl
    | cons c2 t'' =>
      have hp : ¬ (c = a ∧ c2 = b) := by
        intro hcc
        have : (c = a && c2 = b) = true := by simp [hcc.1, hcc.2]
        simp [hasPair, this] at h
      have ht : hasPair a b (c2 :: t'') = false := by
        simp only [hasPair, Bool.or_eq_false_iff] at h
        exact h.2
      have := ih ht
      show (if c = a ∧ c2 = b then _ else _) = _
      rw [if_neg hp, this]

theorem splitPair_append_sep (a b : Char) (t u : PyStr)
    (h : hasPair a b t = false)
    (hlast : a = b → t.getLast? ≠ some a) :
    splitPair a b (t ++ a :: b :: u) = t :: splitPair a b u := by
  induction t with
  | nil =>
    show splitPair a b (a :: b :: u) = [] :: splitPair a b u
    show (if a = a ∧ b = b then _ else _) = _
    rw [if_pos ⟨rfl, rfl⟩]
  | cons c t' ih =>
    cases t' with
    | nil =>
      show splitPair a b (c :: a :: b :: u) = [c] :: splitPair a b u
      have hca : ¬ (c = a ∧ a = b) := by
        rintro ⟨rfl, hab⟩
        exact hlast hab (by simp)
      show (if c = a ∧ a = b then _ else _) = _
      rw [if_neg hca]
      have inner : splitPair a b (a :: b :: u) = [] :: splitPair a b u := by
        show (if a = a ∧ b = b then _ else _) = _
        rw [if_pos ⟨rfl, rfl⟩]
      rw [inner]
    | cons c2 t'' =>
      have hp : ¬ (c = a ∧ c2 = b) := by
        intro hcc
        have : (c = a && c2 = b) = true := by simp [hcc.1, hcc.2]
        simp [hasPair, this] at h
      have ht : hasPair a b (c2 :: t'') = false := by
        simp only [hasPair, Bool.or_eq_false_iff] at h
        exact h.2
      have hlast' : a = b → (c2 :: t'').getLast? ≠ some a := by
        intro hab
        have := hlast hab
        simpa [List.getLast?_cons_cons] using this
      have inner := ih ht hlast'
      simp only [List.cons_append] at inner ⊢
      show (if c = a ∧ c2 = b then _ else _) = _
      rw [if_neg hp]
      rw [inner]

theorem splitPair_intercalate (a b : Char) (xs : List PyStr) (hne : xs ≠ [])
    (h : ∀ x ∈ xs, hasPair a b x = false)
    (hlast : a = b → ∀ x ∈ xs, x.getLast? ≠ some a) :
    splitPair a b (List.intercalate [a, b] xs) = xs := by
  induction xs with
  | nil => exact absurd rfl hne
  | cons x xs' ih =>
    cases xs' with
    | nil =>
      simp only [List.intercalate, List.intersperse, List.flatten]
      simpa using splitPair_of_not_hasPair a b x (h x (by simp))
    | cons y ys =>
      have step : List.intercalate [a, b] (x :: y :: ys) =
          x ++ a :: b :: List.intercalate [a, b] (y :: ys) := by
        simp [List.intercalate, List.intersperse]
      rw [step]
      rw [splitPair_append_sep a b x _ (h x (by simp))
        (fun hab => hlast hab x (by simp))]
      have := ih (by simp) (fun z hz => h z (by simp [hz]))
        (fun hab z hz => hlast hab z (by simp [hz]))
      rw [this]

theorem dropWhile_idem (p : Char → Bool) (l : List Char) :
    (l.dropWhile p).dropWhile p = l.dropWhile p := by
  induction l with
  | nil => rfl
  | cons c t ih =>
    by_cases h : p c
    · simp [List.dropWhile_cons, h, ih]
    · simp [List.dropWhile_cons, h]

theorem length_dropWhile_le' (p : Char → Bool) (l : List Char) :
    (l.dropWhile p).length ≤ l.length := by
  induction l with
  | nil => exact le_refl _
  | cons c t ih =>
    by_cases h : p c
    · simp only [List.dropWhile_cons, h, if_true]
      exact le_trans ih (Nat.le_succ _)
    · simp [List.dropWhile_cons, h]

theorem dropWhile_eq_self_of_pref (p : Char → Bool) (l m : List Char)
    (hl : l.dropWhile p = l) (hm : m <+: l) : m.dropWhile p = m := by
  cases m with
  | nil => rfl
  | cons c t =>
    obtain ⟨r, hr⟩ := hm
    cases l with
    | nil => simp at hr
    | cons c' t' =>
      have hcc : c = c' := by
        have := congrArg (fun x => x.head?) hr
        simpa using this
      have hpc : p c' = false := by
        by_contra hp
        have hp' : p c' = true := by
          cases hx : p c' with
          | true => rfl
          | false => exact absurd hx hp
        rw [List.dropWhile_cons, hp', if_pos rfl] at hl
        have := length_dropWhile_le' p t'
        rw [hl] at this
        simp at this
      subst hcc
      simp [List.dropWhile_cons, hpc]

theorem dropWhile_suffix' (p : Char → Bool) (l : List Char) :
    ∃ w, w ++ l.dropWhile p = l := by
  induction l with
  | nil => exact ⟨[], rfl⟩
  | cons c t ih =>
    by_cases h : p c
    · obtain ⟨w, hw⟩ := ih
      exact ⟨c :: w, by simp [List.dropWhile_cons, h, hw]⟩
    · exact ⟨[], by simp [List.dropWhile_cons, h]⟩

theorem pyStrip_pref (s : PyStr) : pyStrip s <+: s.dropWhile pyWs := by
  obtain ⟨w, hw⟩ := dropWhile_suffix' pyWs (s.dropWhile pyWs).reverse
  refine ⟨w.reverse, ?_⟩
  have := congrArg List.reverse hw
  simpa [pyStrip] using this

theorem pyStrip_dropWhile (s : PyStr) : (pyStrip s).dropWhile pyWs = pyStrip s := by
  refine dropWhile_eq_self_of_pref pyWs (s.dropWhile pyWs) (pyStrip s) ?_ (pyStrip_pref s)
  exact dropWhile_idem pyWs s

theorem pyStrip_idem (s : PyStr) : pyStrip (pyStrip s) = pyStrip s := by
  show ((((pyStrip s).dropWhile pyWs).reverse.dropWhile pyWs)).reverse = pyStrip s
  rw [pyStrip_dropWhile]
  show (((((s.dropWhile pyWs).reverse.dropWhile pyWs)).reverse.reverse).dropWhile pyWs).reverse
      = pyStrip s
  rw [List.reverse_reverse, dropWhile_idem]
  rfl

theorem pyStrip_cons_ws (c : Char) (s : PyStr) (h : pyWs c = true) :
    pyStrip (c :: s) = pyStrip s := by
  show (((c :: s).dropWhile pyWs).reverse.dropWhile pyWs).reverse = _
  rw [List.dropWhile_cons, if_pos h]
  rfl

/-- The bracketed citation block built by `search_documents`:
Python `f"[{source}]: {content}"`. -/
def formatBlock (source content : PyStr) : PyStr :=
  pystr "[" ++ source ++ pystr "]: " ++ content

/-- The deduplication key `search_documents` computes for an accepted
block: Python `r.split(']:')[1].strip()`. -/
def dedupKeyOf (r : PyStr) : PyStr :=
  pyStrip ((splitPair ']' ':' r).getD 1 [])

theorem dedupKeyOf_formatBlock (t c : PyStr)
    (ht : hasPair ']' ':' t = false)
    (hc : hasPair ']' ':' c = false)
    (hsc : pyStrip c = c) :
    dedupKeyOf (formatBlock t c) = c := by
  have hshape : formatBlock t c = ('[' :: t) ++ ']' :: ':' :: (' ' :: c) := by
    simp [formatBlock, pystr]
  have ht' : hasPair ']' ':' ('[' :: t) = false := by
    rw [hasPair_cons_of_ne ']' ':' '[' t (by decide)]
    exact ht
  have hc' : hasPair ']' ':' (' ' :: c) = false := by
    rw [hasPair_cons_of_ne ']' ':' ' ' c (by decide)]
    exact hc
  have hsplit : splitPair ']' ':' (formatBlock t c) = [('[' :: t), (' ' :: c)] := by
    rw [hshape]
    rw [splitPair_append_sep ']' ':' ('[' :: t) (' ' :: c) ht'
      (fun hab => absurd hab (by decide))]
    rw [splitPair_of_not_hasPair ']' ':' (' ' :: c) hc']
  show pyStrip ((splitPair ']' ':' (formatBlock t c)).getD 1 []) = c
  rw [hsplit]
  show pyStrip (' ' :: c) = c
  rw [pyStrip_cons_ws ' ' c (by decide)]
  exact hsc

/-- A document returned by a retriever (Python `doc.page_content`). -/
structure RDoc where
  page_content : PyStr

/-- One entry of `config['vectorstores']`: a titled document index.
`retrieved` records the outcome of
`vs['retriever'].get_relevant_documents(query)` for the (fixed) query
under consideration: `.ok docs` when the call returns, `.error e` when
it raises an exception whose `str` is `e`. -/
structure VectorStore where
  title : PyStr
  retrieved : Except PyStr (List RDoc)

/-- Body of the inner `for doc in docs` loop of `search_documents`:
append `f"[{source}]: {content}"` unless `content` equals a dedup key
`r.split(']:')[1].strip()` of an already accepted block. -/
def acceptDoc (source : PyStr) (results : List PyStr) (content : PyStr) : List PyStr :=
  if content ∈ results.map dedupKeyOf then results
  else results ++ [formatBlock source content]

/-- Accumulation of `results` across `config['vectorstores']` in
`search_documents` (pages/3_💬_chat.py lines 177-188). An exception
raised by one retriever propagates out of the loop to the enclosing
`try`/`except` of the whole function, which is why the result is an
`Except`. -/
def searchResults : List VectorStore → List PyStr → Except PyStr (List PyStr)
  | [], results => .ok results
  | vs :: rest, results =>
    match vs.retrieved with
    | .error e => .error e
    | .ok docs =>
        searchResults rest
          (docs.foldl (fun acc d => acceptDoc vs.title acc (pyStrip d.page_content)) results)

/-- `search_documents` from pages/3_💬_chat.py lines 174-195 (the copy
in pages/5_📑_document_chat.py lines 275-290 is identical), for a fixed
query whose per-index outcomes are recorded in `vss`. -/
def search_documents (vss : List VectorStore) (context_window : Nat) : PyStr :=
  match searchResults vss [] with
  | .error e => pystr "Error al buscar: " ++ e
  | .ok results =>
    if results = [] then
      pystr "No encontré información específica. ¿Podrías reformular la pregunta?"
    else pyJoin (pystr "\n\n") (results.take context_window)

/-- The trimmed passage texts one index contributes, in rank order. -/
def passagesOf (vs : VectorStore) : List PyStr :=
  match vs.retrieved with
  | .ok docs => docs.map (fun d => pyStrip d.page_content)
  | .error _ => []

/-- All trimmed passage texts of a query, in index-then-rank order. -/
def allContents (vss : List VectorStore) : List PyStr :=
  (vss.map passagesOf).flatten

/-- Specification-side deduplication, following the spec's words: keep
each distinct text once, the first occurrence (among texts not already
in `seen`) winning, in order of encounter. -/
def firstSeenFrom (seen : List PyStr) : List PyStr → List PyStr
  | [] => []
  | c :: cs =>
      if c ∈ seen then firstSeenFrom seen cs
      else c :: firstSeenFrom (seen ++ [c]) cs

theorem firstSeenFrom_nodup (l : List PyStr) : ∀ seen : List PyStr,
    (firstSeenFrom seen l).Nodup ∧ ∀ c ∈ firstSeenFrom seen l, c ∉ seen := by
  induction l with
  | nil => exact fun seen => ⟨List.nodup_nil, by simp [firstSeenFrom]⟩
  | cons x xs ih =>
    intro seen
    by_cases hx : x ∈ seen
    · rw [firstSeenFrom, if_pos hx]
      exact ih seen
    · rw [firstSeenFrom, if_neg hx]
      obtain ⟨hnd, hns⟩ := ih (seen ++ [x])
      refine ⟨List.nodup_cons.mpr ⟨?_, hnd⟩, ?_⟩
      · intro hmem
        exact (hns x hmem) (by simp)
      · intro c hc
        rcases List.mem_cons.mp hc with rfl | hc'
        · exact hx
        · intro hcs
          exact (hns c hc') (by simp [hcs])

theorem mem_firstSeenFrom (l : List PyStr) : ∀ (seen : List PyStr) (c : PyStr),
    c ∈ firstSeenFrom seen l ↔ c ∈ l ∧ c ∉ seen := by
  induction l with
  | nil => simp [firstSeenFrom]
  | cons x xs ih =>
    intro seen c
    by_cases hx : x ∈ seen
    · rw [firstSeenFrom, if_pos hx, ih seen c]
      constructor
      · rintro ⟨h1, h2⟩
        exact ⟨List.mem_cons_of_mem x h1, h2⟩
      · rintro ⟨h1, h2⟩
        rcases List.mem_cons.mp h1 with rfl | h1'
        · exact absurd hx h2
        · exact ⟨h1', h2⟩
    · rw [firstSeenFrom, if_neg hx]
      constructor
      · intro hc
        rcases List.mem_cons.mp hc with rfl | hc'
        · exact ⟨List.mem_cons_self _ _, hx⟩
        · obtain ⟨h1, h2⟩ := (ih (seen ++ [x]) c).mp hc'
          refine ⟨List.mem_cons_of_mem x h1, fun hs => h2 (by simp [hs])⟩
      · rintro ⟨h1, h2⟩
        rcases List.mem_cons.mp h1 with rfl | h1'
        · exact List.mem_cons_self _ _
        · by_cases hcx : c = x
          · subst hcx
            exact List.mem_cons_self _ _
          · refine List.mem_cons_of_mem x ((ih (seen ++ [x]) c).mpr ⟨h1', ?_⟩)
            simp [h2, hcx]

theorem firstSeenFrom_append (l1 : List PyStr) : ∀ (seen l2 : List PyStr),
    firstSeenFrom seen (l1 ++ l2)
      = firstSeenFrom seen l1 ++ firstSeenFrom (seen ++ firstSeenFrom seen l1) l2 := by
  induction l1 with
  | nil => simp [firstSeenFrom]
  | cons x xs ih =>
    intro seen l2
    by_cases hx : x ∈ seen
    · rw [List.cons_append, firstSeenFrom, if_pos hx, firstSeenFrom, if_pos hx, ih]
    · rw [List.cons_append, firstSeenFrom, if_neg hx, firstSeenFrom, if_neg hx, ih]
      simp [List.append_assoc]

/-- A well-formed accepted block: a bracketed citation whose title and
trimmed content are free of the separator `"]:"`. -/
def GoodBlock (r : PyStr) : Prop :=
  ∃ t c, r = formatBlock t c ∧ hasPair ']' ':' t = false ∧
    hasPair ']' ':' c = false ∧ pyStrip c = c

theorem foldl_accept_keys (t : PyStr) (ht : hasPair ']' ':' t = false)
    (contents : List PyStr) : ∀ results : List PyStr,
    (∀ r ∈ results, GoodBlock r) →
    (∀ c ∈ contents, hasPair ']' ':' c = false ∧ pyStrip c = c) →
    ((contents.foldl (fun acc c => acceptDoc t acc c) results).map dedupKeyOf
        = results.map dedupKeyOf
          ++ firstSeenFrom (results.map dedupKeyOf) contents)
    ∧ ∀ r ∈ contents.foldl (fun acc c => acceptDoc t acc c) results, GoodBlock r := by
  induction contents with
  | nil =>
    intro results hgood _
    exact ⟨by simp [firstSeenFrom], hgood⟩
  | cons c cs ih =>
    intro results hgood hc
    have hc0 := hc c (by simp)
    rw [List.foldl_cons]
    by_cases hm : c ∈ results.map dedupKeyOf
    · have hstep : acceptDoc t results c = results := by
        rw [acceptDoc, if_pos hm]
      rw [hstep]
      have hrest := ih results hgood (fun x hx => hc x (by simp [hx]))
      rw [firstSeenFrom, if_pos hm]
      exact hrest
    · have hstep : acceptDoc t results c = results ++ [formatBlock t c] := by
        rw [acceptDoc, if_neg hm]
      rw [hstep]
      have hkey : dedupKeyOf (formatBlock t c) = c :=
        dedupKeyOf_formatBlock t c ht hc0.1 hc0.2
      have hgood' : ∀ r ∈ results ++ [formatBlock t c], GoodBlock r := by
        intro r hr
        rcases List.mem_append.mp hr with hr' | hr'
        · exact hgood r hr'
        · rcases List.mem_singleton.mp hr' with rfl
          exact ⟨t, c, rfl, ht, hc0.1, hc0.2⟩
      have hmap : (results ++ [formatBlock t c]).map dedupKeyOf
          = results.map dedupKeyOf ++ [c] := by
        simp [hkey]
      obtain ⟨h1, h2⟩ := ih (results ++ [formatBlock t c]) hgood'
        (fun x hx => hc x (by simp [hx]))
      refine ⟨?_, h2⟩
      rw [h1, hmap, firstSeenFrom, if_neg hm]
      simp [List.append_assoc]

theorem allContents_cons (vs : VectorStore) (rest : List VectorStore) :
    allContents (vs :: rest) = passagesOf vs ++ allContents rest := by
  simp [allContents]

theorem searchResults_keys (vss : List VectorStore) : ∀ results res : List PyStr,
    (∀ r ∈ results, GoodBlock r) →
    (∀ vs ∈ vss, hasPair ']' ':' vs.title = false) →
    (∀ c ∈ allContents vss, hasPair ']' ':' c = false) →
    searchResults vss results = .ok res →
    res.map dedupKeyOf
      = results.map dedupKeyOf
        ++ firstSeenFrom (results.map dedupKeyOf) (allContents vss) := by
  induction vss with
  | nil =>
    intro results res _ _ _ hok
    have : results = res := by
      simpa [searchResults] using hok
    subst this
    simp [allContents, firstSeenFrom]
  | cons vs rest ih =>
    intro results res hgood htitles hcontents hok
    cases hret : vs.retrieved with
    | error e =>
      rw [searchResults, hret] at hok
      simp at hok
    | ok docs =>
      rw [searchResults, hret] at hok
      dsimp only at hok
      have hpv : passagesOf vs = docs.map (fun d => pyStrip d.page_content) := by
        simp [passagesOf, hret]
      have hfold : docs.foldl
            (fun acc d => acceptDoc vs.title acc (pyStrip d.page_content)) results
          = (passagesOf vs).foldl (fun acc c => acceptDoc vs.title acc c) results := by
        rw [hpv, List.foldl_map]
      rw [hfold] at hok
      have hcs : ∀ c ∈ passagesOf vs, hasPair ']' ':' c = false ∧ pyStrip c = c := by
        intro c hcmem
        refine ⟨hcontents c ?_, ?_⟩
        · rw [allContents_cons]
          exact List.mem_append.mpr (Or.inl hcmem)
        · rw [hpv] at hcmem
          obtain ⟨d, _, rfl⟩ := List.mem_map.mp hcmem
          exact pyStrip_idem _
      obtain ⟨hkeys, hgood'⟩ := foldl_accept_keys vs.title
        (htitles vs (by simp)) (passagesOf vs) results hgood hcs
      have hrec := ih _ res hgood'
        (fun v hv => htitles v (by simp [hv]))
        (fun c hcmem => hcontents c (by rw [allContents_cons]; exact List.mem_append.mpr (Or.inr hcmem)))
        hok
      rw [hrec, hkeys, allContents_cons, firstSeenFrom_append]
      simp [List.append_assoc]

/-- C1 (amended): provided neither a source title nor a trimmed passage
text contains the substring `"]:"`, the accepted `results` list of
`search_documents` contains one block per distinct trimmed passage
text: its dedup keys are exactly the first-seen deduplication of the
trimmed texts in index-then-rank order, contain no duplicates, and
cover exactly the retrieved trimmed texts. -/
theorem search_documents_dedup_firstSeen (vss : List VectorStore) (res : List PyStr)
    (hok : searchResults vss [] = .ok res)
    (htitles : ∀ vs ∈ vss, hasPair ']' ':' vs.title = false)
    (hcontents : ∀ c ∈ allContents vss, hasPair ']' ':' c = false) :
    res.map dedupKeyOf = firstSeenFrom [] (allContents vss)
    ∧ (res.map dedupKeyOf).Nodup
    ∧ (∀ c, c ∈ res.map dedupKeyOf ↔ c ∈ allContents vss) := by
  have hkeys := searchResults_keys vss [] res (by simp) htitles hcontents hok
  simp only [List.map_nil, List.nil_append] at hkeys
  refine ⟨hkeys, ?_, ?_⟩
  · rw [hkeys]
    exact (firstSeenFrom_nodup (allContents vss) []).1
  · intro c
    rw [hkeys, mem_firstSeenFrom]
    simp

/-- C1 counterexample: when a trimmed passage text itself contains
`"]:"` (here `"a]: b"` twice), the dedup key `r.split(']:')[1].strip()`
of the accepted block is `"a"`, not the passage text, so the identical
text is accepted twice: the aggregated result contains the block
`"[S]: a]: b"` twice. -/
theorem search_documents_dedup_cex :
    searchResults [⟨pystr "S", Except.ok [⟨pystr "a]: b"⟩, ⟨pystr "a]: b"⟩]⟩] []
        = Except.ok [pystr "[S]: a]: b", pystr "[S]: a]: b"]
    ∧ pyStrip (pystr "a]: b") = pystr "a]: b" := ⟨rfl, rfl⟩

/-- Witness for `search_documents_dedup_firstSeen` at the spec's
scenario: `context_window = 2`, three indexes returning passages
`["A", "A"]`, `["B"]`, `["C"]` after trim; the aggregated output is
exactly the blocks for `"A"` and `"B"` in that order. -/
theorem search_documents_dedup_firstSeen_witness :
    ((List.map dedupKeyOf [pystr "[S1]: A", pystr "[S2]: B", pystr "[S3]: C"])
        = firstSeenFrom []
            (allContents
              [⟨pystr "S1", Except.ok [⟨pystr "A"⟩, ⟨pystr "A"⟩]⟩,
               ⟨pystr "S2", Except.ok [⟨pystr "B"⟩]⟩,
               ⟨pystr "S3", Except.ok [⟨pystr "C"⟩]⟩])
      ∧ (List.map dedupKeyOf [pystr "[S1]: A", pystr "[S2]: B", pystr "[S3]: C"]).Nodup)
    ∧ search_documents
        [⟨pystr "S1", Except.ok [⟨pystr "A"⟩, ⟨pystr "A"⟩]⟩,
         ⟨pystr "S2", Except.ok [⟨pystr "B"⟩]⟩,
         ⟨pystr "S3", Except.ok [⟨pystr "C"⟩]⟩] 2
      = pystr "[S1]: A\n\n[S2]: B" := by
  have h := search_documents_dedup_firstSeen
    [⟨pystr "S1", Except.ok [⟨pystr "A"⟩, ⟨pystr "A"⟩]⟩,
     ⟨pystr "S2", Except.ok [⟨pystr "B"⟩]⟩,
     ⟨pystr "S3", Except.ok [⟨pystr "C"⟩]⟩]
    [pystr "[S1]: A", pystr "[S2]: B", pystr "[S3]: C"]
    rfl (by decide) (by decide)
  exact ⟨⟨h.1, h.2.1⟩, rfl⟩

theorem searchResults_error_of (vs : VectorStore) (e : PyStr)
    (hvs : vs.retrieved = .error e) (suf : List VectorStore) :
    ∀ (pre : List VectorStore) (acc : List PyStr),
    (∀ v ∈ pre, ∃ docs, v.retrieved = Except.ok docs) →
    searchResults (pre ++ vs :: suf) acc = .error e := by
  intro pre
  induction pre with
  | nil =>
    intro acc _
    rw [List.nil_append, searchResults, hvs]
  | cons v pre' ih =>
    intro acc hpre
    obtain ⟨docs, hd⟩ := hpre v (by simp)
    rw [List.cons_append, searchResults, hd]
    dsimp only
    exact ih _ (fun w hw => hpre w (by simp [hw]))

/-- C2 (amended): if one configured index raises while being queried,
the exception escapes the `for` loop to the function-level
`try`/`except`: the whole aggregation is replaced by the single
diagnostic string `"Error al buscar: <e>"`. Passages from earlier
indexes and from later indexes are all dropped; the function still
returns a string instead of raising, so the answer loop itself is not
aborted. -/
theorem search_documents_error_aborts (pre suf : List VectorStore) (vs : VectorStore)
    (e : PyStr) (n : Nat)
    (hvs : vs.retrieved = .error e)
    (hpre : ∀ v ∈ pre, ∃ docs, v.retrieved = Except.ok docs) :
    search_documents (pre ++ vs :: suf) n = pystr "Error al buscar: " ++ e := by
  unfold search_documents
  rw [searchResults_error_of vs e hvs suf pre [] hpre]

/-- C2 counterexample: first index returns passage `"A"`, second index
raises `"boom"`: the aggregated output is only the diagnostic string
and the already-retrieved block `"[S1]: A"` does not appear in it. -/
theorem search_documents_error_cex :
    search_documents
        [⟨pystr "S1", Except.ok [⟨pystr "A"⟩]⟩,
         ⟨pystr "S2", Except.error (pystr "boom")⟩] 5
      = pystr "Error al buscar: boom"
    ∧ hasSubstr (pystr "[S1]: A")
        (search_documents
          [⟨pystr "S1", Except.ok [⟨pystr "A"⟩]⟩,
           ⟨pystr "S2", Except.error (pystr "boom")⟩] 5) = false := ⟨rfl, rfl⟩

/-- Witness for `search_documents_error_aborts`: one succeeding index
before and one after the failing one. -/
theorem search_documents_error_aborts_witness :
    search_documents
        ([⟨pystr "S1", Except.ok [⟨pystr "A"⟩]⟩]
          ++ ⟨pystr "S2", Except.error (pystr "boom")⟩ ::
            [⟨pystr "S3", Except.ok [⟨pystr "C"⟩]⟩]) 5
      = pystr "Error al buscar: " ++ pystr "boom" := by
  exact search_documents_error_aborts
    [⟨pystr "S1", Except.ok [⟨pystr "A"⟩]⟩]
    [⟨pystr "S3", Except.ok [⟨pystr "C"⟩]⟩]
    ⟨pystr "S2", Except.error (pystr "boom")⟩
    (pystr "boom") 5 rfl
    (by
      intro v hv
      rcases List.mem_singleton.mp hv with rfl
      exact ⟨_, rfl⟩)

/-- C6: the aggregated output is the `"\n\n"`-join of the first
`context_window` accepted blocks, so it never contains more than
`context_window` passage blocks; truncation keeps the first accepted
entries. When the kept blocks contain no blank line and do not end in a
newline, splitting the output back on `"\n\n"` yields at most
`context_window` blocks. -/
theorem search_documents_budget (vss : List VectorStore) (n : Nat) (res : List PyStr)
    (hok : searchResults vss [] = .ok res)
    (hne : res ≠ []) :
    search_documents vss n = pyJoin (pystr "\n\n") (res.take n)
    ∧ (res.take n).length ≤ n
    ∧ (1 ≤ n →
        (∀ b ∈ res.take n, hasPair '\n' '\n' b = false ∧ b.getLast? ≠ some '\n') →
        (splitPair '\n' '\n' (search_documents vss n)).length ≤ n) := by
  have hout : search_documents vss n = pyJoin (pystr "\n\n") (res.take n) := by
    unfold search_documents
    rw [hok]
    dsimp only
    rw [if_neg hne]
  refine ⟨hout, ?_, ?_⟩
  · rw [List.length_take]
    exact min_le_left _ _
  · intro hn hb
    have htne : res.take n ≠ [] := by
      intro hcontra
      rcases List.take_eq_nil_iff.mp hcontra with h | h
      · omega
      · exact hne h
    have hsep : pystr "\n\n" = ['\n', '\n'] := rfl
    rw [hout, pyJoin, hsep]
    rw [splitPair_intercalate '\n' '\n' (res.take n) htne
      (fun x hx => (hb x hx).1)
      (fun _ x hx => (hb x hx).2)]
    rw [List.length_take]
    exact min_le_left _ _

/-- Witness for `search_documents_budget`: `context_window = 2` with
three accepted blocks; the output splits into exactly the first two. -/
theorem search_documents_budget_witness :
    search_documents
        [⟨pystr "S1", Except.ok [⟨pystr "A"⟩]⟩,
         ⟨pystr "S2", Except.ok [⟨pystr "B"⟩]⟩,
         ⟨pystr "S3", Except.ok [⟨pystr "C"⟩]⟩] 2
      = pyJoin (pystr "\n\n")
          ([pystr "[S1]: A", pystr "[S2]: B", pystr "[S3]: C"].take 2)
    ∧ ([pystr "[S1]: A", pystr "[S2]: B", pystr "[S3]: C"].take 2).length ≤ 2
    ∧ (splitPair '\n' '\n'
        (search_documents
          [⟨pystr "S1", Except.ok [⟨pystr "A"⟩]⟩,
           ⟨pystr "S2", Except.ok [⟨pystr "B"⟩]⟩,
           ⟨pystr "S3", Except.ok [⟨pystr "C"⟩]⟩] 2)).length ≤ 2 := by
  have h := search_documents_budget
    [⟨pystr "S1", Except.ok [⟨pystr "A"⟩]⟩,
     ⟨pystr "S2", Except.ok [⟨pystr "B"⟩]⟩,
     ⟨pystr "S3", Except.ok [⟨pystr "C"⟩]⟩] 2
    [pystr "[S1]: A", pystr "[S2]: B", pystr "[S3]: C"]
    rfl (by decide)
  exact ⟨h.1, h.2.1, h.2.2 (by decide) (by decide)⟩

/-- Lowercase hexadecimal digit, as Python's `json` emits in `\u00XX`
escapes. -/
def hexDigit (n : Nat) : Char :=
  if n < 10 then Char.ofNat ('0'.toNat + n) else Char.ofNat ('a'.toNat + (n - 10))

/-- Numeric value of a hexadecimal digit character, if any. -/
def hexVal (c : Char) : Option Nat :=
  if '0' ≤ c ∧ c ≤ '9' then some (c.toNat - '0'.toNat)
  else if 'a' ≤ c ∧ c ≤ 'f' then some (c.toNat - 'a'.toNat + 10)
  else if 'A' ≤ c ∧ c ≤ 'F' then some (c.toNat - 'A'.toNat + 10)
  else none

/-- JSON escaping of one character, exactly as Python's
`json.dump(..., ensure_ascii=False)` does it: only `"`, `\` and control
characters below U+0020 are escaped; everything else (including
multi-byte characters) is written literally. -/
def encChar (c : Char) : PyStr :=
  if c = '"' then ['\\', '"']
  else if c = '\\' then ['\\', '\\']
  else if c = '\x08' then ['\\', 'b']
  else if c = '\x09' then ['\\', 't']
  else if c = '\x0a' then ['\\', 'n']
  else if c = '\x0c' then ['\\', 'f']
  else if c = '\x0d' then ['\\', 'r']
  else if c.toNat < 32 then
    ['\\', 'u', '0', '0', hexDigit (c.toNat / 16), hexDigit (c.toNat % 16)]
  else [c]

/-- JSON string-body encoding. -/
def encBody (s : PyStr) : PyStr := (s.map encChar).flatten

/-- JSON string literal, quotes included. -/
def encString (s : PyStr) : PyStr := '"' :: encBody s ++ ['"']

/-- Decode a JSON string body, the opening quote already consumed:
yields the decoded text and the input remaining after the closing
quote. Models the string scanner of Python's `json.load`. -/
def decStringBody : PyStr → Option (PyStr × PyStr)
  | [] => none
  | c :: rest =>
    if c = '"' then some ([], rest)
    else if c = '\\' then
      match rest with
      | [] => none
      | e :: r =>
        if e = '"' then (decStringBody r).map (fun p => ('"' :: p.1, p.2))
        else if e = '\\' then (decStringBody r).map (fun p => ('\\' :: p.1, p.2))
        else if e = '/' then (decStringBody r).map (fun p => ('/' :: p.1, p.2))
        else if e = 'b' then (decStringBody r).map (fun p => ('\x08' :: p.1, p.2))
        else if e = 't' then (decStringBody r).map (fun p => ('\x09' :: p.1, p.2))
        else if e = 'n' then (decStringBody r).map (fun p => ('\x0a' :: p.1, p.2))
        else if e = 'f' then (decStringBody r).map (fun p => ('\x0c' :: p.1, p.2))
        else if e = 'r' then (decStringBody r).map (fun p => ('\x0d' :: p.1, p.2))
        else if e = 'u' then
          match r with
          | h1 :: h2 :: h3 :: h4 :: r2 =>
            match hexVal h1, hexVal h2, hexVal h3, hexVal h4 with
            | some v1, some v2, some v3, some v4 =>
              (decStringBody r2).map
                (fun p => (Char.ofNat (((v1 * 16 + v2) * 16 + v3) * 16 + v4) :: p.1, p.2))
            | _, _, _, _ => none
          | _ => none
        else none
    else (decStringBody rest).map (fun p => (c :: p.1, p.2))

theorem hexVal_hexDigit : ∀ n < 16, hexVal (hexDigit n) = some n := by decide

theorem decSB_quote (X : PyStr) : decStringBody ('"' :: X) = some ([], X) := by
  rw [decStringBody.eq_def]
  simp

theorem decSB_esc_quote (X : PyStr) :
    decStringBody ('\\' :: '"' :: X) = (decStringBody X).map (fun p => ('"' :: p.1, p.2)) := by
  rw [decStringBody.eq_def]
  simp +decide

theorem decSB_esc_bslash (X : PyStr) :
    decStringBody ('\\' :: '\\' :: X) = (decStringBody X).map (fun p => ('\\' :: p.1, p.2)) := by
  rw [decStringBody.eq_def]
  simp +decide

theorem decSB_esc_b (X : PyStr) :
    decStringBody ('\\' :: 'b' :: X) = (decStringBody X).map (fun p => ('\x08' :: p.1, p.2)) := by
  rw [decStringBody.eq_def]
  simp +decide

theorem decSB_esc_t (X : PyStr) :
    decStringBody ('\\' :: 't' :: X) = (decStringBody X).map (fun p => ('\x09' :: p.1, p.2)) := by
  rw [decStringBody.eq_def]
  simp +decide

theorem decSB_esc_n (X : PyStr) :
    decStringBody ('\\' :: 'n' :: X) = (decStringBody X).map (fun p => ('\x0a' :: p.1, p.2)) := by
  rw [decStringBody.eq_def]
  simp +decide

theorem decSB_esc_f (X : PyStr) :
    decStringBody ('\\' :: 'f' :: X) = (decStringBody X).map (fun p => ('\x0c' :: p.1, p.2)) := by
  rw [decStringBody.eq_def]
  simp +decide

theorem decSB_esc_r (X : PyStr) :
    decStringBody ('\\' :: 'r' :: X) = (decStringBody X).map (fun p => ('\x0d' :: p.1, p.2)) := by
  rw [decStringBody.eq_def]
  simp +decide

theorem decSB_esc_u (h1 h2 h3 h4 : Char) (X : PyStr) :
    decStringBody ('\\' :: 'u' :: h1 :: h2 :: h3 :: h4 :: X) =
      match hexVal h1, hexVal h2, hexVal h3, hexVal h4 with
      | some v1, some v2, some v3, some v4 =>
        (decStringBody X).map
          (fun p => (Char.ofNat (((v1 * 16 + v2) * 16 + v3) * 16 + v4) :: p.1, p.2))
      | _, _, _, _ => none := by
  rw [decStringBody.eq_def]
  simp +decide

theorem decSB_plain (c : Char) (hq : ¬ c = '"') (hbs : ¬ c = '\\') (X : PyStr) :
    decStringBody (c :: X) = (decStringBody X).map (fun p => (c :: p.1, p.2)) := by
  rw [decStringBody.eq_def]
  simp [hq, hbs]

theorem Char_ofNat_toNat_lt32 (c : Char) (h : c.toNat < 32) : Char.ofNat c.toNat = c := by
  have hv : Nat.isValidChar c.toNat := Or.inl (by omega)
  rw [Char.ofNat, dif_pos hv]
  apply Char.eq_of_val_eq
  rw [Char.ofNatAux]
  simp [Char.toNat]
  congr 1

theorem decStringBody_enc (s : PyStr) : ∀ rest : PyStr,
    decStringBody (encBody s ++ '"' :: rest) = some (s, rest) := by
  induction s with
  | nil =>
    intro rest
    show decStringBody ('"' :: rest) = some ([], rest)
    exact decSB_quote rest
  | cons c s' ih =>
    intro rest
    have hb : encBody (c :: s') ++ '"' :: rest = encChar c ++ (encBody s' ++ '"' :: rest) := by
      simp [encBody]
    rw [hb]
    by_cases h1 : c = '"'
    · subst h1
      rw [show encChar '"' = ['\\', '"'] from rfl]
      rw [List.cons_append, List.cons_append, List.nil_append]
      rw [decSB_esc_quote, ih rest]
      rfl
    · by_cases h2 : c = '\\'
      · subst h2
        rw [show encChar '\\' = ['\\', '\\'] from rfl]
        rw [List.cons_append, List.cons_append, List.nil_append]
        rw [decSB_esc_bslash, ih rest]
        rfl
      · by_cases h3 : c = '\x08'
        · subst h3
          rw [show encChar '\x08' = ['\\', 'b'] from rfl]
          rw [List.cons_append, List.cons_append, List.nil_append]
          rw [decSB_esc_b, ih rest]
          rfl
        · by_cases h4 : c = '\x09'
          · subst h4
            rw [show encChar '\x09' = ['\\', 't'] from rfl]
            rw [List.cons_append, List.cons_append, List.nil_append]
            rw [decSB_esc_t, ih rest]
            rfl
          · by_cases h5 : c = '\x0a'
            · subst h5
              rw [show encChar '\x0a' = ['\\', 'n'] from rfl]
              rw [List.cons_append, List.cons_append, List.nil_append]
              rw [decSB_esc_n, ih rest]
              rfl
            · by_cases h6 : c = '\x0c'
              · subst h6
                rw [show encChar '\x0c' = ['\\', 'f'] from rfl]
                rw [List.cons_append, List.cons_append, List.nil_append]
                rw [decSB_esc_f, ih rest]
                rfl
              · by_cases h7 : c = '\x0d'
                · subst h7
                  rw [show encChar '\x0d' = ['\\', 'r'] from rfl]
                  rw [List.cons_append, List.cons_append, List.nil_append]
                  rw [decSB_esc_r, ih rest]
                  rfl
                · by_cases h8 : c.toNat < 32
                  · rw [show encChar c =
                        ['\\', 'u', '0', '0', hexDigit (c.toNat / 16), hexDigit (c.toNat % 16)] by
                      rw [encChar, if_neg h1, if_neg h2, if_neg h3, if_neg h4, if_neg h5,
                        if_neg h6, if_neg h7, if_pos h8]]
                    rw [List.cons_append, List.cons_append, List.cons_append, List.cons_append,
                      List.cons_append, List.cons_append, List.nil_append]
                    rw [decSB_esc_u]
                    have hhi : hexVal (hexDigit (c.toNat / 16)) = some (c.toNat / 16) :=
                      hexVal_hexDigit _ (by omega)
                    have hlo : hexVal (hexDigit (c.toNat % 16)) = some (c.toNat % 16) :=
                      hexVal_hexDigit _ (by omega)
                    rw [show hexVal '0' = some 0 from rfl, hhi, hlo]
                    simp only [ih rest]
                    have hv : ((0 * 16 + 0) * 16 + c.toNat / 16) * 16 + c.toNat % 16 = c.toNat := by
                      omega
                    rw [hv, Char_ofNat_toNat_lt32 c h8]
                    rfl
                  · rw [show encChar c = [c] by
                      rw [encChar, if_neg h1, if_neg h2, if_neg h3, if_neg h4, if_neg h5,
                        if_neg h6, if_neg h7, if_neg h8]]
                    rw [List.cons_append, List.nil_append]
                    rw [decSB_plain c h1 h2, ih rest]
                    rfl

/-- One chat message as the pages build them:
`{"role": ..., "content": ..., "timestamp": ...}` (insertion order of
the keys is role, content, timestamp in every constructor site). -/
structure Turn where
  role : PyStr
  content : PyStr
  timestamp : PyStr
deriving DecidableEq

/-- One `"key": value` member as `json.dump` writes it
(item separator `': '`). -/
def encField (key v : PyStr) : PyStr :=
  encString key ++ ':' :: ' ' :: encString v

/-- Newline plus the 4-space indentation of object members under
`indent=2`. -/
def wsIndent4 : PyStr := '\n' :: pystr "    "

/-- One message object as `json.dump(..., ensure_ascii=False, indent=2)`
lays it out inside the history array. -/
def encTurn (t : Turn) : PyStr :=
  '\x7b' :: (wsIndent4 ++ (encField (pystr "role") t.role
    ++ (',' :: (wsIndent4 ++ (encField (pystr "content") t.content
      ++ (',' :: (wsIndent4 ++ (encField (pystr "timestamp") t.timestamp
        ++ ('\n' :: ' ' :: ' ' :: ['\x7d'])))))))))

/-- The full serialized history file:
`json.dump(messages, f, ensure_ascii=False, indent=2)` on a list of
message dicts. -/
def encodeTurns : List Turn → PyStr
  | [] => pystr "[]"
  | t :: ts =>
      '[' :: '\n' :: ' ' :: ' ' :: (encTurn t
        ++ ((ts.map (fun t2 => ',' :: '\n' :: ' ' :: ' ' :: encTurn t2)).flatten
          ++ '\n' :: [']']))

/-- JSON whitespace accepted between tokens by `json.load`. -/
def jsonWs (c : Char) : Bool := c = ' ' || c = '\n' || c = '\t' || c = '\r'

/-- Skip leading JSON whitespace. -/
def skipWs (s : PyStr) : PyStr := s.dropWhile jsonWs

/-- Expect `c` as the next non-whitespace character. -/
def expectChar (c : Char) (s : PyStr) : Option PyStr :=
  match skipWs s with
  | [] => none
  | d :: r => if d = c then some r else none

/-- Parse a JSON string literal after optional whitespace. -/
def parseJString (s : PyStr) : Option (PyStr × PyStr) :=
  match skipWs s with
  | '"' :: r => decStringBody r
  | _ => none

/-- Parse a `"key": <string>` member whose key must be `key`. -/
def parseField (key : PyStr) (s : PyStr) : Option (PyStr × PyStr) :=
  match parseJString s with
  | none => none
  | some (k, r1) =>
    if k = key then
      match expectChar ':' r1 with
      | none => none
      | some r2 => parseJString r2
    else none

/-- Parse one message object of the session-history schema. -/
def parseTurn (s : PyStr) : Option (Turn × PyStr) :=
  match expectChar '\x7b' s with
  | none => none
  | some r0 =>
    match parseField (pystr "role") r0 with
    | none => none
    | some (role, r1) =>
      match expectChar ',' r1 with
      | none => none
      | some r1' =>
        match parseField (pystr "content") r1' with
        | none => none
        | some (content, r2) =>
          match expectChar ',' r2 with
          | none => none
          | some r2' =>
            match parseField (pystr "timestamp") r2' with
            | none => none
            | some (timestamp, r3) =>
              match expectChar '\x7d' r3 with
              | none => none
              | some r4 => some (⟨role, content, timestamp⟩, r4)

/-- Parse the `(, <object>)* ]` remainder of a non-empty array; `fuel`
bounds the number of elements still possible. -/
def parseRest : Nat → PyStr → Option (List Turn × PyStr)
  | 0, _ => none
  | fuel + 1, s =>
    match skipWs s with
    | [] => none
    | d :: r =>
      if d = ']' then some ([], r)
      else if d = ',' then
        match parseTurn r with
        | none => none
        | some (t, r1) =>
          match parseRest fuel r1 with
          | none => none
          | some (ts, r2) => some (t :: ts, r2)
      else none

/-- Model of `json.load` restricted to the session-history schema the
repository writes: a JSON array of objects with exactly the keys
`role`, `content`, `timestamp` in that order; `none` models the
`json.JSONDecodeError` raised on any other input. -/
def parseTurns (s : PyStr) : Option (List Turn) :=
  match expectChar '[' s with
  | none => none
  | some r =>
    match skipWs r with
    | [] => none
    | d :: r2 =>
      if d = ']' then (if skipWs r2 = [] then some [] else none)
      else
        match parseTurn r with
        | none => none
        | some (t, r1) =>
          match parseRest (r1.length + 1) r1 with
          | none => none
          | some (ts, r2) => if skipWs r2 = [] then some (t :: ts) else none

theorem skipWs_cons_ws (c : Char) (h : jsonWs c = true) (s : PyStr) :
    skipWs (c :: s) = skipWs s := by
  simp [skipWs, List.dropWhile_cons, h]

theorem skipWs_cons_not (c : Char) (h : jsonWs c = false) (s : PyStr) :
    skipWs (c :: s) = c :: s := by
  simp [skipWs, List.dropWhile_cons, h]

theorem skipWs_append_ws (w : PyStr) (hw : ∀ c ∈ w, jsonWs c = true) (x : PyStr) :
    skipWs (w ++ x) = skipWs x := by
  induction w with
  | nil => rfl
  | cons c w' ih =>
    rw [List.cons_append, skipWs_cons_ws c (hw c (by simp))]
    exact ih (fun d hd => hw d (by simp [hd]))

theorem expectChar_pref (c : Char) (hc : jsonWs c = false) (w : PyStr)
    (hw : ∀ d ∈ w, jsonWs d = true) (x : PyStr) :
    expectChar c (w ++ c :: x) = some x := by
  rw [expectChar, skipWs_append_ws w hw, skipWs_cons_not c hc]
  simp

theorem expectChar_cons (c : Char) (hc : jsonWs c = false) (x : PyStr) :
    expectChar c (c :: x) = some x := by
  rw [expectChar, skipWs_cons_not c hc]
  simp

theorem parseJString_pref (w : PyStr) (hw : ∀ d ∈ w, jsonWs d = true)
    (s rest : PyStr) :
    parseJString (w ++ (encString s ++ rest)) = some (s, rest) := by
  have hsh : encString s ++ rest = '"' :: (encBody s ++ '"' :: rest) := by
    simp [encString]
  rw [parseJString, hsh, skipWs_append_ws w hw, skipWs_cons_not '"' (by decide)]
  exact decStringBody_enc s rest

theorem parseField_enc (key v : PyStr) (w : PyStr) (hw : ∀ d ∈ w, jsonWs d = true)
    (rest : PyStr) :
    parseField key (w ++ (encField key v ++ rest)) = some (v, rest) := by
  have hsh : encField key v ++ rest
      = encString key ++ (':' :: ' ' :: (encString v ++ rest)) := by
    simp [encField]
  have h1 : parseJString (w ++ (encField key v ++ rest))
      = some (key, ':' :: ' ' :: (encString v ++ rest)) := by
    rw [hsh]
    exact parseJString_pref w hw key _
  rw [parseField, h1]
  dsimp only
  rw [if_pos rfl, expectChar_cons ':' (by decide)]
  dsimp only
  rw [show ' ' :: (encString v ++ rest) = [' '] ++ (encString v ++ rest) from rfl]
  exact parseJString_pref [' '] (by decide) v rest

theorem parseTurn_enc (w : PyStr) (hw : ∀ d ∈ w, jsonWs d = true) (t : Turn) (rest : PyStr) :
    parseTurn (w ++ (encTurn t ++ rest)) = some (t, rest) := by
  have h0 : encTurn t ++ rest
      = '\x7b' :: (wsIndent4 ++ (encField (pystr "role") t.role
          ++ (',' :: (wsIndent4 ++ (encField (pystr "content") t.content
            ++ (',' :: (wsIndent4 ++ (encField (pystr "timestamp") t.timestamp
              ++ ('\n' :: ' ' :: ' ' :: ('\x7d' :: rest)))))))))) := by
    simp [encTurn]
  rw [h0, parseTurn]
  rw [expectChar_pref '\x7b' (by decide) w hw]
  dsimp only
  rw [parseField_enc (pystr "role") t.role wsIndent4 (by decide)]
  dsimp only
  rw [expectChar_cons ',' (by decide)]
  dsimp only
  rw [parseField_enc (pystr "content") t.content wsIndent4 (by decide)]
  dsimp only
  rw [expectChar_cons ',' (by decide)]
  dsimp only
  rw [parseField_enc (pystr "timestamp") t.timestamp wsIndent4 (by decide)]
  dsimp only
  rw [show '\n' :: ' ' :: ' ' :: ('\x7d' :: rest) = ['\n', ' ', ' '] ++ ('\x7d' :: rest) from rfl]
  rw [expectChar_pref '\x7d' (by decide) ['\n', ' ', ' '] (by decide)]

theorem parseRest_enc (ts : List Turn) : ∀ fuel : Nat, ts.length < fuel → ∀ rest : PyStr,
    parseRest fuel
        ((ts.map (fun t2 => ',' :: '\n' :: ' ' :: ' ' :: encTurn t2)).flatten
          ++ '\n' :: ']' :: rest)
      = some (ts, rest) := by
  induction ts with
  | nil =>
    intro fuel hf rest
    cases fuel with
    | zero => omega
    | succ f =>
      rw [show ((List.map (fun t2 => ',' :: '\n' :: ' ' :: ' ' :: encTurn t2) []).flatten
          ++ '\n' :: ']' :: rest) = '\n' :: ']' :: rest by simp]
      rw [parseRest]
      rw [skipWs_cons_ws '\n' (by decide), skipWs_cons_not ']' (by decide)]
      dsimp only
      rw [if_pos rfl]
  | cons t2 ts' ih =>
    intro fuel hf rest
    cases fuel with
    | zero => omega
    | succ f =>
      have h0 : ((List.map (fun x => ',' :: '\n' :: ' ' :: ' ' :: encTurn x) (t2 :: ts')).flatten
            ++ '\n' :: ']' :: rest)
          = ',' :: (['\n', ' ', ' '] ++ (encTurn t2
              ++ ((ts'.map (fun x => ',' :: '\n' :: ' ' :: ' ' :: encTurn x)).flatten
                ++ '\n' :: ']' :: rest))) := by
        simp
      rw [h0, parseRest]
      rw [skipWs_cons_not ',' (by decide)]
      dsimp only
      rw [if_neg (by decide), if_pos rfl]
      rw [parseTurn_enc ['\n', ' ', ' '] (by decide)]
      dsimp only
      rw [ih f (by simpa using hf) rest]

theorem length_le_flatten_items (ts : List Turn) :
    ts.length ≤ ((ts.map (fun t2 => ',' :: '\n' :: ' ' :: ' ' :: encTurn t2)).flatten).length := by
  induction ts with
  | nil => simp
  | cons t2 ts' ih =>
    simp only [List.map_cons, List.flatten_cons, List.length_append, List.length_cons]
    omega

theorem parseTurns_enc (msgs : List Turn) : parseTurns (encodeTurns msgs) = some msgs := by
  cases msgs with
  | nil => rfl
  | cons t ts =>
    rw [encodeTurns, parseTurns]
    rw [expectChar_cons '[' (by decide)]
    dsimp only
    have h0 : encTurn t
          ++ ((ts.map (fun t2 => ',' :: '\n' :: ' ' :: ' ' :: encTurn t2)).flatten
            ++ '\n' :: [']'])
        = '\x7b' :: (wsIndent4 ++ (encField (pystr "role") t.role
            ++ (',' :: (wsIndent4 ++ (encField (pystr "content") t.content
              ++ (',' :: (wsIndent4 ++ (encField (pystr "timestamp") t.timestamp
                ++ ('\n' :: ' ' :: ' ' :: ('\x7d' ::
                  ((ts.map (fun t2 => ',' :: '\n' :: ' ' :: ' ' :: encTurn t2)).flatten
                    ++ '\n' :: [']']))))))))))) := by
      simp [encTurn]
    have hskip : skipWs ('\n' :: ' ' :: ' ' :: (encTurn t
          ++ ((ts.map (fun t2 => ',' :: '\n' :: ' ' :: ' ' :: encTurn t2)).flatten
            ++ '\n' :: [']'])))
        = '\x7b' :: (wsIndent4 ++ (encField (pystr "role") t.role
            ++ (',' :: (wsIndent4 ++ (encField (pystr "content") t.content
              ++ (',' :: (wsIndent4 ++ (encField (pystr "timestamp") t.timestamp
                ++ ('\n' :: ' ' :: ' ' :: ('\x7d' ::
                  ((ts.map (fun t2 => ',' :: '\n' :: ' ' :: ' ' :: encTurn t2)).flatten
                    ++ '\n' :: [']']))))))))))) := by
      rw [h0]
      rw [skipWs_cons_ws '\n' (by decide), skipWs_cons_ws ' ' (by decide),
        skipWs_cons_ws ' ' (by decide), skipWs_cons_not '\x7b' (by decide)]
    rw [hskip]
    dsimp only
    rw [if_neg (by decide)]
    have h1 : ('\n' :: ' ' :: ' ' :: (encTurn t
          ++ ((ts.map (fun t2 => ',' :: '\n' :: ' ' :: ' ' :: encTurn t2)).flatten
            ++ '\n' :: [']'])))
        = ['\n', ' ', ' '] ++ (encTurn t
          ++ ((ts.map (fun t2 => ',' :: '\n' :: ' ' :: ' ' :: encTurn t2)).flatten
            ++ '\n' :: ']' :: [])) := by
      simp
    rw [h1, parseTurn_enc ['\n', ' ', ' '] (by decide)]
    dsimp only
    rw [parseRest_enc ts _ (by
      have := length_le_flatten_items ts
      simp only [List.length_append, List.length_cons]
      omega) []]
    dsimp only
    rw [show skipWs [] = [] from rfl]
    simp

/-- The chat-history storage area: a map from file path to file text.
Writing a path shadows any earlier write (open-for-write overwrites). -/
def FileSys := List (PyStr × PyStr)

/-- Read a file's text, `none` when the path does not exist. -/
def fsGet : FileSys → PyStr → Option PyStr
  | [], _ => none
  | kv :: rest, p => if kv.1 = p then some kv.2 else fsGet rest p

/-- Write (or overwrite) a file. -/
def fsSet (fs : FileSys) (p v : PyStr) : FileSys := (p, v) :: fs

/-- The path `os.path.join("data", "chat_history", f"{agent_id}.json")`. -/
def historyPath (agent_id : PyStr) : PyStr :=
  pystr "data/chat_history/" ++ agent_id ++ pystr ".json"

/-- `save_agent_history` (pages/3_💬_chat.py lines 29-34, identical in
pages/5_📑_document_chat.py): dump the message list as UTF-8 JSON with
`ensure_ascii=False, indent=2` to the agent's history file. -/
def save_agent_history (fs : FileSys) (agent_id : PyStr) (messages : List Turn) : FileSys :=
  fsSet fs (historyPath agent_id) (encodeTurns messages)

/-- `load_agent_history` (pages/3_💬_chat.py lines 21-27, identical in
pages/5_📑_document_chat.py): a missing file yields `[]`; otherwise
`json.load` the file text (`none` models the exception raised on
unparsable content). -/
def load_agent_history (fs : FileSys) (agent_id : PyStr) : Option (List Turn) :=
  match fsGet fs (historyPath agent_id) with
  | none => some []
  | some txt => parseTurns txt

/-- C5: saving a session under an agent key and then loading that key
yields the identical ordered turn sequence — role, text and timestamp
all preserved — for arbitrary unicode content of every field. -/
theorem save_then_load_roundtrip (fs : FileSys) (agent_id : PyStr) (messages : List Turn) :
    load_agent_history (save_agent_history fs agent_id messages) agent_id = some messages := by
  rw [load_agent_history, save_agent_history, fsSet]
  rw [show fsGet ((historyPath agent_id, encodeTurns messages) :: fs) (historyPath agent_id)
      = some (encodeTurns messages) by rw [fsGet, if_pos rfl]]
  exact parseTurns_enc messages

/-- Internal state of the langchain agent each page constructs once and
keeps in `st.session_state.agent`: its `ConversationBufferMemory`,
holding the (input, output) exchanges of the successful `run` calls. -/
structure AgentState where
  chatMemory : List (PyStr × PyStr)

/-- The agent as freshly built by `initialize_agent` with a new, empty
`ConversationBufferMemory`. -/
def freshAgent : AgentState := ⟨[]⟩

/-- Outcome of `st.session_state.agent.run(prompt)` for one query:
either the answer text, or the `str` of the exception the model
invocation raised. -/
inductive ModelOutcome where
  | ok (resp : PyStr)
  | err (e : PyStr)

/-- The engine state a page run manipulates: the visible message log
`st.session_state.messages`, the lazily constructed agent
`st.session_state.agent` (`none` when absent), and the history storage
on disk. -/
structure EngineState where
  messages : List Turn
  agent : Option AgentState
  fs : FileSys

/-- `st.session_state.messages = st.session_state.messages[-15:]`
applied when `len(...) > 15` (pages/3_💬_chat.py lines 252-254). -/
def cap15 (msgs : List Turn) : List Turn :=
  if msgs.length > 15 then msgs.drop (msgs.length - 15) else msgs

/-- One user query processed by the chat page (pages/3_💬_chat.py lines
152-254): append the user turn; lazily construct the agent; run it.
On success append the answer turn, record the exchange in the agent's
memory and persist the whole log; on an exception append the
`"❌ Error: ..."` turn (the `save_agent_history` call in the `try`
block is not reached). Finally the log is capped to its last 15
turns. -/
def queryStepChat (agent_id prompt : PyStr) (outcome : ModelOutcome) (ts1 ts2 : PyStr)
    (s : EngineState) : EngineState :=
  let msgs1 := s.messages ++ [⟨pystr "user", prompt, ts1⟩]
  let ag := s.agent.getD freshAgent
  match outcome with
  | .ok resp =>
      let msgs2 := msgs1 ++ [⟨pystr "assistant", resp, ts2⟩]
      { messages := cap15 msgs2
        agent := some ⟨ag.chatMemory ++ [(prompt, resp)]⟩
        fs := save_agent_history s.fs agent_id msgs2 }
  | .err e =>
      let msgs2 := msgs1 ++ [⟨pystr "assistant", pystr "❌ Error: " ++ e, ts2⟩]
      { messages := cap15 msgs2
        agent := some ag
        fs := s.fs }

/-- The same query step in the document-chat page
(pages/5_📑_document_chat.py lines 254-351): identical turn handling
and persistence, but that page never applies the `[-15:]` cap. -/
def queryStepDoc (agent_id prompt : PyStr) (outcome : ModelOutcome) (ts1 ts2 : PyStr)
    (s : EngineState) : EngineState :=
  let msgs1 := s.messages ++ [⟨pystr "user", prompt, ts1⟩]
  let ag := s.agent.getD freshAgent
  match outcome with
  | .ok resp =>
      let msgs2 := msgs1 ++ [⟨pystr "assistant", resp, ts2⟩]
      { messages := msgs2
        agent := some ⟨ag.chatMemory ++ [(prompt, resp)]⟩
        fs := save_agent_history s.fs agent_id msgs2 }
  | .err e =>
      let msgs2 := msgs1 ++ [⟨pystr "assistant", pystr "❌ Error: " ++ e, ts2⟩]
      { messages := msgs2
        agent := some ag
        fs := s.fs }

theorem cap15_length_le (l : List Turn) : (cap15 l).length ≤ 15 := by
  rw [cap15]
  by_cases h : l.length > 15
  · rw [if_pos h, List.length_drop]
    omega
  · rw [if_neg h]
    omega

/-- C3 (amended): in the basic chat page the in-memory log holds at
most 15 turns once a query is processed to completion, while the file a
successful query persists holds the uncapped log — capping happens
after persistence — and can therefore exceed 15 turns. The
document-chat page applies no cap. -/
theorem chat_memory_cap (agent_id prompt resp : PyStr) (o : ModelOutcome)
    (ts1 ts2 : PyStr) (s : EngineState) :
    (queryStepChat agent_id prompt o ts1 ts2 s).messages.length ≤ 15
    ∧ load_agent_history (queryStepChat agent_id prompt (.ok resp) ts1 ts2 s).fs agent_id
        = some (s.messages
            ++ [⟨pystr "user", prompt, ts1⟩, ⟨pystr "assistant", resp, ts2⟩]) := by
  constructor
  · cases o with
    | ok r => exact cap15_length_le _
    | err e => exact cap15_length_le _
  · show load_agent_history (save_agent_history s.fs agent_id
        ((s.messages ++ [⟨pystr "user", prompt, ts1⟩]) ++ [⟨pystr "assistant", resp, ts2⟩]))
        agent_id = _
    rw [save_then_load_roundtrip]
    simp

/-- C3 counterexample: in the document-chat page a query processed to
completion from a 15-turn log leaves 17 turns in the in-memory log —
that page has no cap. -/
theorem doc_memory_uncapped_cex :
    (queryStepDoc (pystr "agent_A_20240101") (pystr "q") (.ok (pystr "r"))
        (pystr "t1") (pystr "t2")
        ⟨List.replicate 15 ⟨pystr "user", pystr "x", pystr "t0"⟩, none, []⟩).messages.length
      = 17 := by rfl

/-- C4 (amended): when the model invocation raises, the session does
not crash: the visible error message is appended to the in-memory log
as an assistant turn and the next query proceeds normally (appending
and persisting as usual); the persisted record, however, is unchanged
at the moment of the error — the error turn only reaches the file
through the next successful persist. -/
theorem model_error_handling (agent_id prompt e ts1 ts2 p2 r2 ts3 ts4 : PyStr)
    (s : EngineState) :
    (queryStepChat agent_id prompt (.err e) ts1 ts2 s).messages
        = cap15 (s.messages ++ [⟨pystr "user", prompt, ts1⟩,
            ⟨pystr "assistant", pystr "❌ Error: " ++ e, ts2⟩])
    ∧ (queryStepChat agent_id prompt (.err e) ts1 ts2 s).fs = s.fs
    ∧ (queryStepChat agent_id p2 (.ok r2) ts3 ts4
          (queryStepChat agent_id prompt (.err e) ts1 ts2 s)).messages
        = cap15 ((queryStepChat agent_id prompt (.err e) ts1 ts2 s).messages
            ++ [⟨pystr "user", p2, ts3⟩, ⟨pystr "assistant", r2, ts4⟩])
    ∧ load_agent_history
          (queryStepChat agent_id p2 (.ok r2) ts3 ts4
            (queryStepChat agent_id prompt (.err e) ts1 ts2 s)).fs agent_id
        = some ((queryStepChat agent_id prompt (.err e) ts1 ts2 s).messages
            ++ [⟨pystr "user", p2, ts3⟩, ⟨pystr "assistant", r2, ts4⟩]) := by
  refine ⟨by simp [queryStepChat], rfl, by simp [queryStepChat], ?_⟩
  show load_agent_history (save_agent_history _ agent_id _) agent_id = _
  rw [save_then_load_roundtrip]
  simp [queryStepChat]

/-- C4 counterexample: a query whose model invocation raises appends
the error turn to the in-memory log, but `save_agent_history` sits
before the exception handler and is not reached: here the history file
still does not exist afterwards, so loading the persisted record yields
`[]` — the error turn is not part of it. -/
theorem error_not_persisted_cex :
    (queryStepChat (pystr "agent_A_20240101") (pystr "q") (.err (pystr "boom"))
        (pystr "t1") (pystr "t2") ⟨[], none, []⟩).messages
      = [⟨pystr "user", pystr "q", pystr "t1"⟩,
         ⟨pystr "assistant", pystr "❌ Error: boom", pystr "t2"⟩]
    ∧ load_agent_history
        (queryStepChat (pystr "agent_A_20240101") (pystr "q") (.err (pystr "boom"))
          (pystr "t1") (pystr "t2") ⟨[], none, []⟩).fs (pystr "agent_A_20240101")
      = some [] := ⟨rfl, rfl⟩

/-- The welcome text of the chat page's f-string (pages/3_💬_chat.py
lines 141-143), indentation of the source literal included. -/
def welcomeChat (name role : PyStr) : PyStr :=
  pystr "¡Hola! Soy " ++ name ++ pystr ", tu " ++ role
    ++ pystr ".\n                Estoy aquí para ayudarte con los documentos que has seleccionado.\n                Para obtener mejores resultados, por favor sé específico en tus preguntas."

/-- The welcome text of the document-chat page's f-string
(pages/5_📑_document_chat.py lines 243-245). -/
def welcomeDoc (name role : PyStr) : PyStr :=
  pystr "¡Hola! Soy " ++ name ++ pystr ", tu " ++ role
    ++ pystr ".\n                    Estoy aquí para ayudarte con el material que estás revisando.\n                    Puedes preguntarme cualquier cosa sobre el documento."

/-- Initialization of `st.session_state.messages` in the chat page
(pages/3_💬_chat.py lines 137-146): seed the log with the welcome turn
when the key is absent (`cur = none`), keep it otherwise. This runs
before the chat input is handled. -/
def initMessagesChat (cur : Option (List Turn)) (name role ts : PyStr) : List Turn :=
  match cur with
  | some m => m
  | none => [⟨pystr "assistant", welcomeChat name role, ts⟩]

/-- Initialization of `st.session_state.messages` in the document-chat
page (pages/5_📑_document_chat.py lines 239-248). -/
def initMessagesDoc (cur : Option (List Turn)) (name role ts : PyStr) : List Turn :=
  match cur with
  | some m => m
  | none => [⟨pystr "assistant", welcomeDoc name role, ts⟩]

/-- C9: whenever the message-log key is uninitialized, each page seeds
it with exactly one assistant welcome turn carrying the current
timestamp, before any user input is processed — so the displayed log is
never empty in that case; an already initialized log is left as is. -/
theorem init_welcome (name role ts : PyStr) (m : List Turn) :
    initMessagesChat none name role ts = [⟨pystr "assistant", welcomeChat name role, ts⟩]
    ∧ (initMessagesChat none name role ts).length = 1
    ∧ initMessagesChat none name role ts ≠ []
    ∧ initMessagesDoc none name role ts = [⟨pystr "assistant", welcomeDoc name role, ts⟩]
    ∧ (initMessagesDoc none name role ts).length = 1
    ∧ initMessagesDoc none name role ts ≠ []
    ∧ initMessagesChat (some m) name role ts = m
    ∧ initMessagesDoc (some m) name role ts = m := by
  refine ⟨rfl, rfl, ?_, rfl, rfl, ?_, rfl, rfl⟩
  · intro h
    simp [initMessagesChat] at h
  · intro h
    simp [initMessagesDoc] at h

/-- The user-interface actions of the chat page that touch the engine
state (pages/3_💬_chat.py): loading a stored history into the log
(lines 118-121), clearing the chat (lines 124-128), saving the history
manually (lines 130-133), and submitting a query (lines 152-254). -/
inductive UIAction where
  | loadHistory (selected : PyStr)
  | clearChat
  | saveHistory
  | query (prompt : PyStr) (outcome : ModelOutcome) (ts1 ts2 : PyStr)

/-- Effect of each action on the engine state. Loading assigns
`st.session_state.messages = load_agent_history(selected)`; a
`json.load` failure raises before the assignment, leaving the state
unchanged. Clearing empties the log and deletes the agent. Saving
writes the current log when it is nonempty. -/
def applyAction (agent_id : PyStr) : UIAction → EngineState → EngineState
  | .loadHistory sel, s =>
      match load_agent_history s.fs sel with
      | some m => { s with messages := m }
      | none => s
  | .clearChat, s => { s with messages := [], agent := none }
  | .saveHistory, s =>
      if s.messages = [] then s
      else { s with fs := save_agent_history s.fs agent_id s.messages }
  | .query p o ts1 ts2, s => queryStepChat agent_id p o ts1 ts2 s

/-- C10: loading a stored history replaces only the visible message
log — the already constructed agent (and hence its conversation
memory) and the stored files are untouched — and the agent is deleted
only by the explicit clear-chat action: any action after which no agent
exists is either the clear action or started from a state with no
agent. After a clear, the next query rebuilds the agent from empty
memory. -/
theorem load_frame_and_clear_only (agent_id sel : PyStr) (s : EngineState)
    (m : List Turn) (hload : load_agent_history s.fs sel = some m)
    (a : UIAction) (p r ts1 ts2 : PyStr) :
    (applyAction agent_id (.loadHistory sel) s).agent = s.agent
    ∧ (applyAction agent_id (.loadHistory sel) s).fs = s.fs
    ∧ (applyAction agent_id (.loadHistory sel) s).messages = m
    ∧ (applyAction agent_id .clearChat s).agent = none
    ∧ (applyAction agent_id .clearChat s).messages = []
    ∧ ((applyAction agent_id a s).agent = none → a = .clearChat ∨ s.agent = none)
    ∧ (applyAction agent_id (.query p (.ok r) ts1 ts2)
          (applyAction agent_id .clearChat s)).agent
        = some ⟨[(p, r)]⟩ := by
  refine ⟨?_, ?_, ?_, rfl, rfl, ?_, ?_⟩
  · show (match load_agent_history s.fs sel with
      | some m => { s with messages := m }
      | none => s).agent = s.agent
    rw [hload]
  · show (match load_agent_history s.fs sel with
      | some m => { s with messages := m }
      | none => s).fs = s.fs
    rw [hload]
  · show (match load_agent_history s.fs sel with
      | some m => { s with messages := m }
      | none => s).messages = m
    rw [hload]
  · intro h
    cases a with
    | loadHistory sel2 =>
      right
      revert h
      show (match load_agent_history s.fs sel2 with
        | some m => { s with messages := m }
        | none => s).agent = none → s.agent = none
      cases load_agent_history s.fs sel2 with
      | none => exact fun h => h
      | some m2 => exact fun h => h
    | clearChat => exact Or.inl rfl
    | saveHistory =>
      right
      revert h
      show (if s.messages = [] then s
        else { s with fs := save_agent_history s.fs agent_id s.messages }).agent = none →
          s.agent = none
      by_cases hm : s.messages = []
      · rw [if_pos hm]
        exact fun h => h
      · rw [if_neg hm]
        exact fun h => h
    | query p2 o2 ts5 ts6 =>
      cases o2 with
      | ok r2 => simp [applyAction, queryStepChat] at h
      | err e2 => simp [applyAction, queryStepChat] at h
  · show (queryStepChat agent_id p (.ok r) ts1 ts2 _).agent = _
    simp [queryStepChat, applyAction, freshAgent]

/-- Witness for `load_frame_and_clear_only`: a state whose storage
holds one saved session for the key being loaded. -/
theorem load_frame_and_clear_only_witness :
    (applyAction (pystr "agent_A_20240102") (.loadHistory (pystr "agent_A_20240101"))
        ⟨[⟨pystr "user", pystr "old", pystr "t9"⟩], some ⟨[(pystr "p0", pystr "r0")]⟩,
          save_agent_history [] (pystr "agent_A_20240101")
            [⟨pystr "user", pystr "hi", pystr "t1"⟩]⟩).agent
      = some ⟨[(pystr "p0", pystr "r0")]⟩
    ∧ (applyAction (pystr "agent_A_20240102") (.loadHistory (pystr "agent_A_20240101"))
        ⟨[⟨pystr "user", pystr "old", pystr "t9"⟩], some ⟨[(pystr "p0", pystr "r0")]⟩,
          save_agent_history [] (pystr "agent_A_20240101")
            [⟨pystr "user", pystr "hi", pystr "t1"⟩]⟩).messages
      = [⟨pystr "user", pystr "hi", pystr "t1"⟩]
    ∧ (applyAction (pystr "agent_A_20240102") .clearChat
        ⟨[⟨pystr "user", pystr "old", pystr "t9"⟩], some ⟨[(pystr "p0", pystr "r0")]⟩,
          save_agent_history [] (pystr "agent_A_20240101")
            [⟨pystr "user", pystr "hi", pystr "t1"⟩]⟩).agent = none
    ∧ (applyAction (pystr "agent_A_20240102")
          (.query (pystr "p1") (.ok (pystr "r1")) (pystr "t3") (pystr "t4"))
          (applyAction (pystr "agent_A_20240102") .clearChat
            ⟨[⟨pystr "user", pystr "old", pystr "t9"⟩], some ⟨[(pystr "p0", pystr "r0")]⟩,
              save_agent_history [] (pystr "agent_A_20240101")
                [⟨pystr "user", pystr "hi", pystr "t1"⟩]⟩)).agent
      = some ⟨[(pystr "p1", pystr "r1")]⟩ := by
  have h := load_frame_and_clear_only (pystr "agent_A_20240102") (pystr "agent_A_20240101")
    ⟨[⟨pystr "user", pystr "old", pystr "t9"⟩], some ⟨[(pystr "p0", pystr "r0")]⟩,
      save_agent_history [] (pystr "agent_A_20240101")
        [⟨pystr "user", pystr "hi", pystr "t1"⟩]⟩
    [⟨pystr "user", pystr "hi", pystr "t1"⟩] (by rfl)
    .saveHistory (pystr "p1") (pystr "r1") (pystr "t3") (pystr "t4")
  exact ⟨h.1, h.2.2.1, h.2.2.2.1, h.2.2.2.2.2.2⟩

/-- One decision of the model inside the reasoning loop: call the
retrieval tool with a sub-query, or emit the final answer. -/
inductive ModelStep where
  | toolCall (q : PyStr)
  | finalAnswer (a : PyStr)

/-- The fixed fallback answer the executor returns when the iteration
cap is exhausted. -/
def iterationLimitMessage : PyStr :=
  pystr "Agent stopped due to iteration limit or time limit."

/-- Modelled from the spec: the bounded reasoning loop of the Tutoring
Agent Loop (spec section 4.4). The loop implementation is langchain's
`AgentExecutor` — configured by the repository via
`initialize_agent(..., max_iterations=3, handle_parsing_errors=True)`
but not itself part of the repository's source — so it is modelled from
the spec's words: up to a fixed maximum of reasoning iterations, each
iteration either invokes the retrieval tool with a sub-query (feeding
the observation back to the model) or produces the final answer;
exhausting the cap yields the fixed non-empty fallback message instead
of an error. Returns the answer and the number of iterations run. -/
def agentLoop (model : Nat → PyStr → ModelStep) (tool : PyStr → PyStr) :
    Nat → PyStr → PyStr × Nat
  | 0, _ => (iterationLimitMessage, 0)
  | n + 1, obs =>
    match model n obs with
    | .finalAnswer a => (a, 1)
    | .toolCall q =>
        let r := agentLoop model tool n (tool q)
        (r.1, r.2 + 1)

/-- C7 (spec-modelled): the agent loop always terminates within the
configured maximum of reasoning iterations, and against a model that
requests a tool call on every iteration it stops after exactly the
maximum (default 3) and returns the fixed, non-empty fallback answer
rather than erroring or looping indefinitely. -/
theorem agentLoop_bounded (model : Nat → PyStr → ModelStep) (tool : PyStr → PyStr)
    (maxIter : Nat) (obs : PyStr) :
    (agentLoop model tool maxIter obs).2 ≤ maxIter
    ∧ ((∀ n o, ∃ q, model n o = .toolCall q) →
        agentLoop model tool maxIter obs = (iterationLimitMessage, maxIter)
        ∧ iterationLimitMessage ≠ []) := by
  induction maxIter generalizing obs with
  | zero =>
    refine ⟨le_refl _, fun _ => ⟨rfl, by decide⟩⟩
  | succ n ih =>
    constructor
    · cases hm : model n obs with
      | finalAnswer a =>
        show (match model n obs with
          | .finalAnswer a => (a, 1)
          | .toolCall q =>
              let r := agentLoop model tool n (tool q)
              (r.1, r.2 + 1)).2 ≤ n + 1
        rw [hm]
        dsimp only
        omega
      | toolCall q =>
        show (match model n obs with
          | .finalAnswer a => (a, 1)
          | .toolCall q =>
              let r := agentLoop model tool n (tool q)
              (r.1, r.2 + 1)).2 ≤ n + 1
        rw [hm]
        have := (ih (tool q)).1
        dsimp only
        omega
    · intro hall
      obtain ⟨q, hq⟩ := hall n obs
      have hrec := (ih (tool q)).2 hall
      refine ⟨?_, by decide⟩
      show (match model n obs with
        | .finalAnswer a => (a, 1)
        | .toolCall q =>
            let r := agentLoop model tool n (tool q)
            (r.1, r.2 + 1)) = (iterationLimitMessage, n + 1)
      rw [hq]
      dsimp only
      rw [hrec.1]

/-- Witness for `agentLoop_bounded`: the default cap of 3 iterations
against a model stub that always requests a tool call. -/
theorem agentLoop_bounded_witness :
    (agentLoop (fun _ _ => .toolCall (pystr "sub")) (fun _ => pystr "obs") 3
        (pystr "start")).2 ≤ 3
    ∧ agentLoop (fun _ _ => .toolCall (pystr "sub")) (fun _ => pystr "obs") 3
        (pystr "start") = (iterationLimitMessage, 3)
    ∧ iterationLimitMessage ≠ [] := by
  have h := agentLoop_bounded (fun _ _ => .toolCall (pystr "sub")) (fun _ => pystr "obs") 3
    (pystr "start")
  have h2 := h.2 (fun n o => ⟨pystr "sub", rfl⟩)
  exact ⟨h.1, h2.1, h2.2⟩

/-- One extracted page:
`{'page_num': ..., 'content': ..., 'preview': ...}`. -/
structure PageRecord where
  page_num : Nat
  content : PyStr
  preview : PyStr
deriving DecidableEq

/-- `extract_pdf_content` (pages/5_📑_document_chat.py lines 69-93):
per page the trimmed text and a preview of its first 100 characters
(with an `"..."` marker when longer); `doc` records what `fitz.open`
and page iteration produced — the page texts, or the message of the
exception raised — and a raising document yields `[]`. -/
def extract_pdf_content (doc : Except PyStr (List PyStr)) : List PageRecord :=
  match doc with
  | .error _ => []
  | .ok pages =>
      pages.enum.map (fun pr =>
        let content := pyStrip pr.2
        let preview :=
          if content.length > 100 then content.take 100 ++ pystr "..." else content
        ⟨pr.1 + 1, content, preview⟩)

/-- The per-session extraction cache living in `st.session_state`,
keyed by `f"pdf_content_{pdf_path}"`. -/
def PdfCache := List (PyStr × List PageRecord)

/-- Cache lookup. -/
def cacheGet : PdfCache → PyStr → Option (List PageRecord)
  | [], _ => none
  | kv :: rest, k => if kv.1 = k then some kv.2 else cacheGet rest k

/-- The caching head of `display_content_viewer`
(pages/5_📑_document_chat.py lines 104-109): extract only when the key
is absent, then store; always answer from the cache entry. The `Nat`
returned counts how many times the underlying extraction ran during
this lookup. -/
def display_content_viewer_cache (extract : PyStr → List PageRecord)
    (cache : PdfCache) (pdf_path : PyStr) : PdfCache × List PageRecord × Nat :=
  let key := pystr "pdf_content_" ++ pdf_path
  match cacheGet cache key with
  | some v => (cache, v, 0)
  | none =>
      let v := extract pdf_path
      ((key, v) :: cache, v, 1)

/-- C8: within a session the page extraction runs at most once per
path: looking the same path up a second time returns page records
identical to the first lookup's, straight from the session cache,
invoking the underlying extraction zero times; on a fresh session the
first lookup runs it exactly once and returns its records. -/
theorem viewer_cache_once (extract : PyStr → List PageRecord) (cache : PdfCache)
    (pdf_path : PyStr) :
    (display_content_viewer_cache extract
        (display_content_viewer_cache extract cache pdf_path).1 pdf_path).2.1
      = (display_content_viewer_cache extract cache pdf_path).2.1
    ∧ (display_content_viewer_cache extract
        (display_content_viewer_cache extract cache pdf_path).1 pdf_path).2.2 = 0
    ∧ (display_content_viewer_cache extract cache pdf_path).2.2 ≤ 1
    ∧ (cacheGet cache (pystr "pdf_content_" ++ pdf_path) = none →
        (display_content_viewer_cache extract cache pdf_path).2.1 = extract pdf_path
        ∧ (display_content_viewer_cache extract cache pdf_path).2.2 = 1) := by
  cases h : cacheGet cache (pystr "pdf_content_" ++ pdf_path) with
  | some v =>
    have h1 : display_content_viewer_cache extract cache pdf_path = (cache, v, 0) := by
      rw [display_content_viewer_cache]
      rw [h]
    rw [h1]
    rw [h1]
    have h2 : display_content_viewer_cache extract cache pdf_path = (cache, v, 0) := h1
    refine ⟨rfl, rfl, by dsimp only; omega, fun hc => ?_⟩
    cases hc
  | none =>
    have h1 : display_content_viewer_cache extract cache pdf_path
        = ((pystr "pdf_content_" ++ pdf_path, extract pdf_path) :: cache,
            extract pdf_path, 1) := by
      rw [display_content_viewer_cache]
      rw [h]
    rw [h1]
    have h2 : display_content_viewer_cache extract
        ((pystr "pdf_content_" ++ pdf_path, extract pdf_path) :: cache) pdf_path
        = ((pystr "pdf_content_" ++ pdf_path, extract pdf_path) :: cache,
            extract pdf_path, 0) := by
      rw [display_content_viewer_cache]
      rw [show cacheGet ((pystr "pdf_content_" ++ pdf_path, extract pdf_path) :: cache)
          (pystr "pdf_content_" ++ pdf_path) = some (extract pdf_path) by
        rw [cacheGet, if_pos rfl]]
    rw [h2]
    exact ⟨rfl, rfl, by dsimp only; omega, fun _ => ⟨rfl, rfl⟩⟩

/-- Witness for `viewer_cache_once`: a fresh session and the real
`extract_pdf_content` on a one-page document. -/
theorem viewer_cache_once_witness :
    (display_content_viewer_cache
        (fun _ => extract_pdf_content (Except.ok [pystr " hola "]))
        (display_content_viewer_cache
          (fun _ => extract_pdf_content (Except.ok [pystr " hola "])) [] (pystr "d.pdf")).1
        (pystr "d.pdf")).2.1
      = (display_content_viewer_cache
          (fun _ => extract_pdf_content (Except.ok [pystr " hola "])) [] (pystr "d.pdf")).2.1
    ∧ (display_content_viewer_cache
        (fun _ => extract_pdf_content (Except.ok [pystr " hola "]))
        (display_content_viewer_cache
          (fun _ => extract_pdf_content (Except.ok [pystr " hola "])) [] (pystr "d.pdf")).1
        (pystr "d.pdf")).2.2 = 0
    ∧ (display_content_viewer_cache
        (fun _ => extract_pdf_content (Except.ok [pystr " hola "])) [] (pystr "d.pdf")).2.1
      = extract_pdf_content (Except.ok [pystr " hola "])
    ∧ (display_content_viewer_cache
        (fun _ => extract_pdf_content (Except.ok [pystr " hola "])) [] (pystr "d.pdf")).2.2
      = 1 := by
  have h := viewer_cache_once
    (fun _ => extract_pdf_content (Except.ok [pystr " hola "])) [] (pystr "d.pdf")
  have h4 := h.2.2.2 (by rfl)
  exact ⟨h.1, h.2.1, h4.1, h4.2⟩

/-- Witness for `init_welcome` at a concrete persona and timestamp. -/
theorem init_welcome_witness :
    initMessagesChat none (pystr "Tutor") (pystr "profesor") (pystr "t0")
      = [⟨pystr "assistant", welcomeChat (pystr "Tutor") (pystr "profesor"), pystr "t0"⟩]
    ∧ (initMessagesChat none (pystr "Tutor") (pystr "profesor") (pystr "t0")).length = 1
    ∧ initMessagesChat none (pystr "Tutor") (pystr "profesor") (pystr "t0") ≠ []
    ∧ initMessagesDoc none (pystr "Tutor") (pystr "profesor") (pystr "t0")
      = [⟨pystr "assistant", welcomeDoc (pystr "Tutor") (pystr "profesor"), pystr "t0"⟩]
    ∧ initMessagesDoc none (pystr "Tutor") (pystr "profesor") (pystr "t0") ≠ [] := by
  have h := init_welcome (pystr "Tutor") (pystr "profesor") (pystr "t0") []
  exact ⟨h.1, h.2.1, h.2.2.1, h.2.2.2.1, h.2.2.2.2.2.1⟩
